import Mathlib

/-!
Verification of limmma-scripts: a shallow embedding of the GeoPackage-to-raster
conversion script (src/gpkg_to_raster/gkpg_to_raster.py), the canopy-tile
download script (src/download/download_global_canopy_data.py), and the
CSV-to-shapefile join (src/csv_to_shp/main.py), together with proofs of the
specification's claims about them.

Conventions of the embedding:
* Python/pandas scalar cell values are modelled by `PyVal`: a rational number,
  a string, or `missing` (NaN/None).  Pandas elementwise equality, under which
  a missing value compares unequal to everything including itself, is `pyEq`.
* Floating-point coordinates and raster cell values are modelled by `ℚ`.
* A geometry is its vertex list (used for bounds, as `gdf.total_bounds` does)
  together with its pixel footprint `cells`: the set of raster cells whose
  centre test the external rasterization library passes for it.  The
  point-in-polygon test itself lives in the external library (GDAL), so the
  footprint is taken as primitive data; the burn order, fill logic and value
  handling around it are modelled faithfully from the source.
* Exceptions are modelled by `Except Err` / optional `Err` traces.  The
  spec's abstract error taxonomy (SchemaError, DegenerateExtentError, ...)
  names the exception classes the script actually hits (pandas KeyError,
  ZeroDivisionError from a zero raster dimension, ...).
-/

/-- A pandas/Python cell value: a number, a string, or a missing value (NaN). -/
inductive PyVal where
  | num (q : ℚ)
  | str (s : String)
  | missing
deriving DecidableEq, Repr

/-- Pandas elementwise equality: numbers and strings compare by value, a
missing value (NaN) compares unequal to everything, itself included. -/
def pyEq : PyVal → PyVal → Bool
  | .num a, .num b => a == b
  | .str s, .str t => s == t
  | _, _ => false

/-- Whether a value is missing (NaN). -/
def isMissing : PyVal → Bool
  | .missing => true
  | _ => false

/-- A geometry: its vertices (the data `total_bounds` ranges over) and its
pixel footprint under the raster grid (the cells whose test the external
rasterization library passes for this geometry). -/
structure Geometry where
  pts : List (ℚ × ℚ)
  cells : List (ℕ × ℕ)
deriving DecidableEq, Repr

/-- One row of the GeoDataFrame: a geometry plus named attribute values. -/
structure Feature where
  geom : Geometry
  attrs : List (String × PyVal)
deriving DecidableEq, Repr

/-- The GeoDataFrame: its attribute column names and its ordered features.
(The pandas `geometry` column is modelled separately as `Feature.geom`.) -/
structure Collection where
  columns : List String
  features : List Feature
deriving DecidableEq, Repr

/-- Look an attribute up on a feature; absent entries read as NaN. -/
def getAttr (f : Feature) (name : String) : PyVal :=
  (f.attrs.lookup name).getD .missing

/-- The exception classes the script can hit, under the spec's abstract
taxonomy names. -/
inductive Err where
  | readError
  | schemaError
  | degenerateExtentError
  | writeError
  | typeError
  | indexError
deriving DecidableEq, Repr

/-- Column access `gdf[name]`: the column's values, or a pandas `KeyError` (the spec's
`SchemaError`) when the column is absent. -/
def getColumn (c : Collection) (name : String) : Except Err (List PyVal) :=
  if name ∈ c.columns then .ok (c.features.map (getAttr · name))
  else .error .schemaError

/-- The bounding box `[minx, miny, maxx, maxy]` of `gdf.total_bounds`. -/
structure Bounds where
  minx : ℚ
  miny : ℚ
  maxx : ℚ
  maxy : ℚ
deriving DecidableEq, Repr

/-- All vertices of all geometries of a feature list. -/
def allPts (fs : List Feature) : List (ℚ × ℚ) :=
  fs.flatMap (fun f => f.geom.pts)

/-- Bounds of a single point. -/
def ptBounds (p : ℚ × ℚ) : Bounds :=
  { minx := p.1, miny := p.2, maxx := p.1, maxy := p.2 }

/-- Extend bounds by one point. -/
def mergeB (b : Bounds) (p : ℚ × ℚ) : Bounds :=
  { minx := min b.minx p.1, miny := min b.miny p.2,
    maxx := max b.maxx p.1, maxy := max b.maxy p.2 }

/-- Bounds `gdf.total_bounds`: min/max X and Y across all geometries; `none` models
the all-NaN bounds of a collection with no coordinates (which makes the
subsequent `int(...)` conversion raise). -/
def totalBounds (fs : List Feature) : Option Bounds :=
  match allPts fs with
  | [] => none
  | p :: ps => some (ps.foldl mergeB (ptBounds p))

/-- Python's `int()` on a float: truncation toward zero.  (The sign test is
on the numerator, which for a rational is the same as on the value.) -/
def pyInt (q : ℚ) : ℤ :=
  if 0 ≤ q.num then ⌊q⌋ else ⌈q⌉

/-- The raster dimensions computed by `create_raster_from_layer`:
`width = int((maxx - minx) / resolution)`, `height = int((maxy - miny) / resolution)`. -/
def rasterSize (b : Bounds) (res : ℚ) : ℤ × ℤ :=
  (pyInt ((b.maxx - b.minx) / res), pyInt ((b.maxy - b.miny) / res))

/-- The affine transform of `rasterio.transform.from_bounds` (only reached
with positive width and height; a zero dimension raises beforehand). -/
structure Transform where
  a : ℚ
  b : ℚ
  c : ℚ
  d : ℚ
  e : ℚ
  f : ℚ
deriving DecidableEq, Repr

/-- The transform `rasterio.transform.from_bounds(minx, miny, maxx, maxy, width, height)`. -/
def from_bounds (minx miny maxx maxy : ℚ) (w h : ℤ) : Transform :=
  { a := (maxx - minx) / (w : ℚ), b := 0, c := minx,
    d := 0, e := (miny - maxy) / (h : ℚ), f := maxy }

/-- An in-memory single-band raster: dimensions, georeferencing and the cell
values as a function of (row, col). -/
structure Raster where
  width : ℕ
  height : ℕ
  transform : Transform
  data : ℕ → ℕ → ℚ

/-- Whether cell (i, j) lies in a geometry's pixel footprint. -/
def coversCell (g : Geometry) (i j : ℕ) : Bool :=
  decide ((i, j) ∈ g.cells)

/-- Burn one (geometry, value) pair into a grid: cells in the footprint take
the value, all others keep what they held. -/
def burnCell (grid : ℕ → ℕ → ℚ) (g : Geometry) (v : ℚ) : ℕ → ℕ → ℚ :=
  fun i j => if coversCell g i j then v else grid i j

/-- The call `rasterio.features.rasterize` with a fill value: start from a grid of
the fill value and burn the pairs in order, so a later pair overwrites an
earlier one on shared cells. -/
def rasterizeGrid (pairs : List (Geometry × ℚ)) (fill : ℚ) : ℕ → ℕ → ℚ :=
  pairs.foldl (fun acc p => burnCell acc p.1 p.2) (fun _ _ => fill)

/-- Fill `gdf[column].fillna(0)` followed by the numeric-dtype requirement of the
rasterize call: NaN becomes 0, numbers pass through, a string value makes
the rasterize call raise. -/
def toBurnVal : PyVal → Option ℚ
  | .num q => some q
  | .missing => some 0
  | .str _ => none

/-- Map `toBurnVal` over a whole column; `none` as soon as any value fails. -/
def toBurnVals : List PyVal → Option (List ℚ)
  | [] => some []
  | v :: vs =>
    match toBurnVal v, toBurnVals vs with
    | some q, some qs => some (q :: qs)
    | _, _ => none

/-- Function `create_raster_from_layer(gdf, column_name, output_path, resolution)`,
lines 52-98 of gkpg_to_raster.py, up to its internal try/except: compute
`total_bounds`, the truncated integer dimensions, the transform (raising the
spec's `DegenerateExtentError` when a dimension is not positive, as the
division by zero / NaN conversion does), fetch the column (KeyError when
absent), fill NaN with 0, and rasterize with fill value 0. -/
def create_raster_from_layer (c : Collection) (colName : String) (res : ℚ) :
    Except Err Raster :=
  match totalBounds c.features with
  | none => .error .degenerateExtentError
  | some b =>
    if (rasterSize b res).1 ≤ 0 ∨ (rasterSize b res).2 ≤ 0 then
      .error .degenerateExtentError
    else
      match getColumn c colName with
      | .error e => .error e
      | .ok vals =>
        match toBurnVals vals with
        | none => .error .typeError
        | some qs =>
          .ok { width := (rasterSize b res).1.toNat, height := (rasterSize b res).2.toNat,
                transform := from_bounds b.minx b.miny b.maxx b.maxy
                  (rasterSize b res).1 (rasterSize b res).2,
                data := rasterizeGrid ((c.features.map (·.geom)).zip qs) 0 }

/-- Two values count as one key for pandas `unique`: equal under `pyEq`, or
both missing (pandas collapses repeated NaN into a single NaN entry). -/
def pyEquiv (v w : PyVal) : Bool :=
  pyEq v w || (isMissing v && isMissing w)

/-- Worker for `pandas.Series.unique`: first occurrences in order, NaN kept once. -/
def pyUniqueAux (seen : List PyVal) : List PyVal → List PyVal
  | [] => []
  | v :: vs =>
    if seen.any (fun w => pyEquiv w v) then pyUniqueAux seen vs
    else v :: pyUniqueAux (v :: seen) vs

/-- The operation `pandas.Series.unique` over a value list. -/
def pyUnique (l : List PyVal) : List PyVal :=
  pyUniqueAux [] l

/-- Python `<` between cell values: numbers and strings by value; every
comparison involving NaN is false (which is what makes `sorted` on a list
containing NaN order-stable around the NaN). -/
def pyLt : PyVal → PyVal → Bool
  | .num a, .num b => a < b
  | .str s, .str t => s < t
  | _, _ => false

/-- Insert into a sorted list under `pyLt`. -/
def insertSorted (v : PyVal) : List PyVal → List PyVal
  | [] => [v]
  | w :: ws => if pyLt v w then v :: w :: ws else w :: insertSorted v ws

/-- Python `sorted` (as a stable comparison sort under `pyLt`). -/
def pySort (l : List PyVal) : List PyVal :=
  l.foldr insertSorted []

/-- The grouping values of the collection: `gdf['Year']` read through
`getAttr` (this definition presumes nothing about the column's presence;
`convert_by_year_run` checks that first, as the script's `gdf['Year']` does). -/
def yearValues (c : Collection) : List PyVal :=
  c.features.map (getAttr · "Year")

/-- Keys `sorted(unique)` of the Year column: the group keys in iteration order. -/
def yearKeys (c : Collection) : List PyVal :=
  pySort (pyUnique (yearValues c))

/-- Selection by year: the features whose Year compares equal (under
pandas elementwise equality) to the key. -/
def yearSubset (c : Collection) (k : PyVal) : List Feature :=
  c.features.filter (fun f => pyEq (getAttr f "Year") k)

/-- The per-year partition the script iterates: each key with its subset. -/
def yearGroups (c : Collection) : List (PyVal × List Feature) :=
  (yearKeys c).map (fun k => (k, yearSubset c k))

/-- The per-year slice of the collection, as the script's `gdf_year` copy. -/
def filterYear (c : Collection) (y : PyVal) : Collection :=
  { c with features := yearSubset c y }

/-- The console lines the conversion driver emits, as structured entries. -/
inductive LogEntry where
  | readFailed
  | converting (year : PyVal) (colName : String)
  | created (year : PyVal) (colName : String)
  | createdFlat (colName : String)
  | rasterizeError (colName : String) (e : Err)
deriving DecidableEq, Repr

/-- The observable outcome of the per-year driver: its log and the raster
files it wrote, each file identified by its (year, column) pair. -/
structure RunOut where
  logs : List LogEntry
  writes : List (PyVal × String)
deriving DecidableEq, Repr

/-- One iteration of the inner conversion loop (lines 192-196): print the
progress line, run `create_raster_from_layer`, and either record the written
file or record the error its internal try/except printed. -/
def pairStep (runPair : PyVal → String → Except Err Raster) (out : RunOut)
    (y : PyVal) (colName : String) : RunOut :=
  match runPair y colName with
  | .ok _ =>
    { logs := out.logs ++ [.converting y colName, .created y colName],
      writes := out.writes ++ [(y, colName)] }
  | .error e =>
    { logs := out.logs ++ [.converting y colName, .rasterizeError colName e],
      writes := out.writes }

/-- The nested year × column loop of `convert_gpkg_to_rasters_by_year`
(lines 183-196), over an arbitrary per-pair rasterization outcome. -/
def pairLoop (years : List PyVal) (cols : List String)
    (runPair : PyVal → String → Except Err Raster) : RunOut :=
  years.foldl (fun out y => cols.foldl (fun o colName => pairStep runPair o y colName) out)
    { logs := [], writes := [] }

/-- Python `str.startswith`, computed on the character lists. -/
def pyStartsWith (pre s : String) : Bool :=
  pre.data.isPrefixOf s.data

/-- Function `convert_gpkg_to_rasters_by_year` (lines 141-200) after the output
directory is created: the optional collection is the result of
`get_gpkg_layers` (None when reading failed, which the function logs and
returns from normally).  The second component is the exception escaping the
call, if any: the pandas KeyError on a missing Year column (the spec's
SchemaError) or the IndexError from printing `years[0]` of an empty key list.
Note the `exclude` parameter is accepted and never used, exactly as in the
source: columns are chosen by the `Num_` name prefix alone. -/
def convert_by_year_run (readRes : Option Collection) (_exclude : List String) (res : ℚ) :
    RunOut × Option Err :=
  match readRes with
  | none => ({ logs := [.readFailed], writes := [] }, none)
  | some c =>
    match getColumn c "Year" with
    | .error e => ({ logs := [], writes := [] }, some e)
    | .ok _ =>
      match yearKeys c with
      | [] => ({ logs := [], writes := [] }, some .indexError)
      | y0 :: ys =>
        let cols := c.columns.filter (fun s => pyStartsWith "Num_" s)
        (pairLoop (y0 :: ys) cols
          (fun y colName => create_raster_from_layer (filterYear c y) colName res), none)

/-- Whether `select_dtypes(include=[np.number])` keeps a column: every value
numeric or missing (a NaN-bearing numeric column is float dtype). -/
def isNumericVal : PyVal → Bool
  | .str _ => false
  | _ => true

/-- A column is numeric when all its values are. -/
def isNumericCol (c : Collection) (name : String) : Bool :=
  (c.features.map (getAttr · name)).all isNumericVal

/-- The observable outcome of the no-year-split driver: log plus written
raster files, one per converted column. -/
structure FlatOut where
  logs : List LogEntry
  writes : List String
deriving DecidableEq, Repr

/-- Function `convert_gpkg_to_rasters` (lines 203-245) after the output directory is
created: numeric columns not in `exclude` are converted one by one, each
failure caught and logged inside `create_raster_from_layer`.  No exception
escapes this path. -/
def convert_no_split_run (readRes : Option Collection) (exclude : List String) (res : ℚ) :
    FlatOut × Option Err :=
  match readRes with
  | none => ({ logs := [.readFailed], writes := [] }, none)
  | some c =>
    let numeric := (c.columns.filter (fun s => isNumericCol c s)).filter
      (fun s => decide (s ∉ exclude))
    (numeric.foldl (fun o colName =>
      match create_raster_from_layer c colName res with
      | .ok _ => { logs := o.logs ++ [.createdFlat colName], writes := o.writes ++ [colName] }
      | .error e => { logs := o.logs ++ [.rasterizeError colName e], writes := o.writes })
      { logs := [], writes := [] }, none)

/-- The environment one CLI run sees: whether the input path exists, and what
`get_gpkg_layers` yields when it does (`none` models a read failure the
function catches, printing the error and returning None). -/
structure RunEnv where
  fileExists : Bool
  readResult : Option Collection

/-- The exit code of `main()` (lines 248-300): 1 when the input file is
missing; otherwise the chosen conversion runs, and an uncaught exception
terminates the interpreter with exit code 1 while a normal return exits 0. -/
def mainExit (env : RunEnv) (exclude : List String) (res : ℚ)
    (noYearSplit : Bool) : ℕ :=
  if env.fileExists = false then 1
  else
    let escaped :=
      if noYearSplit then (convert_no_split_run env.readResult exclude res).2
      else (convert_by_year_run env.readResult exclude res).2
    match escaped with
    | some _ => 1
    | none => 0

/-- Zero-pad a latitude magnitude to two digits, as the script's format string does. -/
def pad2 (n : ℤ) : String :=
  if n.toNat < 10 then "0" ++ toString n.toNat else toString n.toNat

/-- Zero-pad to three digits, for the longitude label. -/
def pad3 (n : ℤ) : String :=
  if n.toNat < 10 then "00" ++ toString n.toNat
  else if n.toNat < 100 then "0" ++ toString n.toNat
  else toString n.toNat

/-- Function `lat_label` of download_global_canopy_data.py. -/
def lat_label (lat : ℤ) : String :=
  if 0 ≤ lat then "N" ++ pad2 lat else "S" ++ pad2 (-lat)

/-- Function `lon_label` of download_global_canopy_data.py. -/
def lon_label (lon : ℤ) : String :=
  if 0 ≤ lon then "E" ++ pad3 lon else "W" ++ pad3 (-lon)

/-- Emit `count` values starting at `start`, stepping by `step`. -/
def pyRangeAux (start step : ℤ) : ℕ → List ℤ
  | 0 => []
  | n + 1 => start :: pyRangeAux (start + step) step n

/-- Python `range(start, stop, step)` for a nonzero step: the length is
`max 0 (ceil((stop-start)/step))`. -/
def pyRange (start stop step : ℤ) : List ℤ :=
  if 0 < step then
    pyRangeAux start step (((stop - start).toNat + step.toNat - 1) / step.toNat)
  else if step < 0 then
    pyRangeAux start step (((start - stop).toNat + (-step).toNat - 1) / (-step).toNat)
  else []

/-- The latitudes `range(LAT_MAX, LAT_MIN - 1, -LAT_STEP)` with the script's constants. -/
def lat_range : List ℤ := pyRange 57 47 (-3)

/-- The longitudes `range(LON_MIN, LON_MAX + 1, LON_STEP)` (the script's bounding box has
`LON_MIN <= LON_MAX`). -/
def lon_range : List ℤ := pyRange (-15) 1 3

/-- The tile file name the download loop builds for one (lat, lon, suffix). -/
def tileName (lat lon : ℤ) (suffix : String) : String :=
  "ETH_GlobalCanopyHeight_10m_2020_" ++ lat_label lat ++ lon_label lon ++ "_" ++ suffix

/-- Every file name the loop visits, in visit order (lat outer, lon inner,
then the two suffixes). -/
def tileNames : List String :=
  lat_range.flatMap (fun lat =>
    lon_range.flatMap (fun lon =>
      ["Map.tif", "Map_SD.tif"].map (fun suffix => tileName lat lon suffix)))

/-- State of one run of the download loop: the download folder's contents
(file name to content) and the trace of HTTP requests issued. -/
structure DLState where
  fs : List (String × String)
  requests : List String
deriving DecidableEq, Repr

/-- The body of the innermost loop (lines 46-58): skip when the output path
exists; otherwise issue the request and, when it answers 200 with a body
(`resp` returns the content), write the file. -/
def downloadStep (resp : String → Option String) (st : DLState) (fname : String) : DLState :=
  if (st.fs.lookup fname).isSome then st
  else
    match resp fname with
    | some content =>
      { fs := st.fs ++ [(fname, content)], requests := st.requests ++ [fname] }
    | none => { st with requests := st.requests ++ [fname] }

/-- The whole download run over an initial folder state. -/
def runDownload (resp : String → Option String) (fs0 : List (String × String)) : DLState :=
  tileNames.foldl (downloadStep resp) { fs := fs0, requests := [] }

/-- A CSV row / shapefile attribute row: named cell values. -/
abbrev Row := List (String × PyVal)

/-- Look a named cell up in a row; an absent column reads as NaN. -/
def rowGet (r : Row) (name : String) : PyVal :=
  (r.lookup name).getD .missing

/-- One shapefile record: its geometry (left abstract here — the join never touches
it) and its attribute row. -/
structure ShpRec where
  geom : ℕ
  attrs : Row
deriving DecidableEq, Repr

/-- A CSV table: column names in order plus its rows. -/
structure Frame where
  columns : List String
  rows : List Row
deriving DecidableEq, Repr

/-- The column names of a row. -/
def keysOf (r : Row) : List String := r.map Prod.fst

/-- Assignment of one cell as pandas does it: replace the named cell, or append the column
when it does not exist yet (pandas column names are unique). -/
def setCol : Row → String → PyVal → Row
  | [], name, v => [(name, v)]
  | (k, w) :: t, name, v =>
    if k = name then (name, v) :: t else (k, w) :: setCol t name v

/-- Lines 38-39 of csv_to_shp/main.py: initialize every CSV data column on a
record with NaN. -/
def initCols (r : Row) (cols : List String) : Row :=
  cols.foldl (fun a name => setCol a name .missing) r

/-- Lines 42-49, one `df.iterrows()` step applied to one record: when the
record's shapefile key equals the row's CSV key (pandas `==`), copy every CSV
data column from the row onto the record. -/
def joinRowStep (shpId csvId : String) (csvCols : List String) (row : Row)
    (rec : ShpRec) : ShpRec :=
  if pyEq (rowGet rec.attrs shpId) (rowGet row csvId) then
    { rec with attrs := csvCols.foldl (fun a name => setCol a name (rowGet row name)) rec.attrs }
  else rec

/-- Lines 31-49 of csv_to_shp/main.py: copy the shapefile, initialize the CSV
data columns with NaN, then fold the CSV rows over all records. -/
def csvJoin (shp : List ShpRec) (shpId : String) (df : Frame) (csvId : String) :
    List ShpRec :=
  let csvCols := df.columns.filter (fun name => decide (name ≠ csvId))
  df.rows.foldl
    (fun recs row => recs.map (joinRowStep shpId csvId csvCols row))
    (shp.map (fun r => { r with attrs := initCols r.attrs csvCols }))

/-- The CSV data columns the join appends. -/
def csvDataCols (df : Frame) (csvId : String) : List String :=
  df.columns.filter (fun name => decide (name ≠ csvId))

/-- Read a progress line back as the (year, column) pair it announces. -/
def convertingOf : LogEntry → Option (PyVal × String)
  | .converting y colName => some (y, colName)
  | _ => none

/-- Every (year, column) pair of the batch, in iteration order. -/
def allPairs (years : List PyVal) (cols : List String) : List (PyVal × String) :=
  years.flatMap (fun y => cols.map (fun colName => (y, colName)))

/-- A concrete geometry for instantiating the theorems: a box with vertices
(0,0) and (2,3) whose footprint holds the cells (0,0) and (1,0). -/
def gEx : Geometry := { pts := [(0, 0), (2, 3)], cells := [(0, 0), (1, 0)] }

/-- A second concrete geometry overlapping `gEx` on cell (0,0). -/
def gEx2 : Geometry := { pts := [(1, 1)], cells := [(0, 0), (1, 1)] }

/-- A concrete feature: year 2000, disaster count 5. -/
def fEx : Feature := { geom := gEx, attrs := [("Year", .num 2000), ("Num_X", .num 5)] }

/-- A second concrete feature: year 2000, missing disaster count. -/
def fEx2 : Feature := { geom := gEx2, attrs := [("Year", .num 2000), ("Num_X", .missing)] }

/-- A concrete collection with a Year column and one `Num_` column. -/
def cEx : Collection := { columns := ["Year", "Num_X"], features := [fEx, fEx2] }

/-- A concrete collection whose single feature has a missing Year value. -/
def cExMissingYear : Collection :=
  { columns := ["Year"], features := [{ geom := gEx, attrs := [("Year", .missing)] }] }

/-- A concrete collection without a Year column. -/
def cExNoYear : Collection :=
  { columns := ["Num_X"], features := [{ geom := gEx, attrs := [("Num_X", .num 5)] }] }

/-- The raster the example collection produces at resolution 1: a 2×3 grid
burning values 5 (for `fEx`) then 0 (for `fEx2`, whose value is NaN). -/
def rEx : Raster :=
  { width := 2, height := 3, transform := from_bounds 0 0 2 3 2 3,
    data := rasterizeGrid ((cEx.features.map (·.geom)).zip [5, 0]) 0 }

/-- A concrete CLI environment: file present, read failed. -/
def envReadFail : RunEnv := { fileExists := true, readResult := none }

/-- A concrete CSV table for the join example. -/
def dfEx : Frame :=
  { columns := ["cid", "v"], rows := [[("cid", .num 1), ("v", .num 7)]] }

/-- A concrete shapefile for the join example: record 0 matches the CSV row,
record 1 does not. -/
def shpEx : List ShpRec :=
  [{ geom := 0, attrs := [("sid", .num 1), ("a", .str "x")] },
   { geom := 1, attrs := [("sid", .num 2), ("a", .str "y")] }]

/-- The fold of `rasterizeGrid` resolves to last-write-wins: a cell holds the
value of the last pair whose footprint contains it, or the fill value. -/
theorem rasterizeGrid_getLast (pairs : List (Geometry × ℚ)) (fill : ℚ) (i j : ℕ) :
    rasterizeGrid pairs fill i j =
      (((pairs.filter (fun p => coversCell p.1 i j)).getLast?).map Prod.snd).getD fill := by
  induction pairs using List.reverseRecOn with
  | nil => rfl
  | append_singleton l x ih =>
    have hfold : rasterizeGrid (l ++ [x]) fill i j =
        (if coversCell x.1 i j then x.2 else rasterizeGrid l fill i j) := by
      simp [rasterizeGrid, List.foldl_append, burnCell]
    rw [hfold, List.filter_append]
    cases hc : coversCell x.1 i j with
    | true => simp [hc, List.getLast?_concat]
    | false =>
      have hfilter : List.filter (fun p => coversCell p.1 i j) [x] = [] := by
        simp [hc]
      simp [hfilter, ih]

/-- C1: every raster `create_raster_from_layer` produces burns the column's
values (NaN filled with 0) in feature order with fill value 0, so a pixel
covered by at least one footprint holds the value of the last covering
feature and an uncovered pixel holds 0. -/
theorem create_raster_from_layer_last_covering (c : Collection) (colName : String)
    (res : ℚ) (r : Raster) (h : create_raster_from_layer c colName res = .ok r) :
    ∃ qs, toBurnVals (c.features.map (getAttr · colName)) = some qs ∧
      ∀ i j, i < r.height → j < r.width →
        r.data i j =
          ((((c.features.map (·.geom)).zip qs).filter
              (fun p => coversCell p.1 i j)).getLast?.map Prod.snd).getD 0 := by
  unfold create_raster_from_layer at h
  cases hb : totalBounds c.features with
  | none => simp only [hb] at h; exact (Except.noConfusion h)
  | some b =>
    simp only [hb] at h
    by_cases hdim : (rasterSize b res).1 ≤ 0 ∨ (rasterSize b res).2 ≤ 0
    · rw [if_pos hdim] at h; exact (Except.noConfusion h)
    · rw [if_neg hdim] at h
      cases hcol : getColumn c colName with
      | error e => simp only [hcol] at h; exact (Except.noConfusion h)
      | ok vals =>
        simp only [hcol] at h
        cases htb : toBurnVals vals with
        | none => simp only [htb] at h; exact (Except.noConfusion h)
        | some qs =>
          simp only [htb] at h
          have hvals : vals = c.features.map (getAttr · colName) := by
            unfold getColumn at hcol
            split at hcol
            · injection hcol with hv
              exact hv.symm
            · exact absurd hcol (by simp)
          injection h with h
          refine ⟨qs, by rw [← hvals]; exact htb, ?_⟩
          intro i j _ _
          rw [← h]
          simpa using rasterizeGrid_getLast ((c.features.map (·.geom)).zip qs) 0 i j

/-- C2: on a successful rasterization both raster dimensions are at least 1,
and whenever a computed dimension is below 1 the rasterization of that pair
fails with the DegenerateExtentError of the spec's taxonomy. -/
theorem create_raster_dims_ge_one_or_degenerate (c : Collection) (colName : String)
    (res : ℚ) (hres : 0 < res) :
    (∀ r, create_raster_from_layer c colName res = .ok r →
        1 ≤ r.width ∧ 1 ≤ r.height) ∧
    (∀ b, totalBounds c.features = some b →
        ((rasterSize b res).1 < 1 ∨ (rasterSize b res).2 < 1) →
        create_raster_from_layer c colName res = .error .degenerateExtentError) := by
  constructor
  · intro r h
    unfold create_raster_from_layer at h
    cases hb : totalBounds c.features with
    | none => simp only [hb] at h; exact (Except.noConfusion h)
    | some b =>
      simp only [hb] at h
      by_cases hdim : (rasterSize b res).1 ≤ 0 ∨ (rasterSize b res).2 ≤ 0
      · rw [if_pos hdim] at h; exact (Except.noConfusion h)
      · rw [if_neg hdim] at h
        push_neg at hdim
        cases hcol : getColumn c colName with
        | error e => simp only [hcol] at h; exact (Except.noConfusion h)
        | ok vals =>
          simp only [hcol] at h
          cases htb : toBurnVals vals with
          | none => simp only [htb] at h; exact (Except.noConfusion h)
          | some qs =>
            simp only [htb] at h
            injection h with h
            rw [← h]
            exact ⟨by show 1 ≤ (rasterSize b res).1.toNat; omega,
                   by show 1 ≤ (rasterSize b res).2.toNat; omega⟩
  · intro b hb hlt
    unfold create_raster_from_layer
    simp only [hb]
    rw [if_pos (by omega)]

/-- Witness for C2: the example collection spans 2×3 world units, so at
resolution 10 both computed dimensions are 0 and the pair fails. -/
theorem create_raster_dims_ge_one_or_degenerate_witness :
    create_raster_from_layer cEx "Num_X" 10 = .error .degenerateExtentError :=
  (create_raster_dims_ge_one_or_degenerate cEx "Num_X" 10 (by norm_num)).2
    { minx := 0, miny := 0, maxx := 2, maxy := 3 } rfl
    (by unfold rasterSize pyInt; norm_num)

/-- Evaluation helper: on the success path `create_raster_from_layer` returns
exactly the record built from the bounds, the size and the burned grid. -/
theorem create_raster_eq_ok (c : Collection) (colName : String) (res : ℚ)
    (b : Bounds) (qs : List ℚ)
    (hb : totalBounds c.features = some b)
    (hw : 1 ≤ (rasterSize b res).1) (hh : 1 ≤ (rasterSize b res).2)
    (hcol : colName ∈ c.columns)
    (hqs : toBurnVals (c.features.map (getAttr · colName)) = some qs) :
    create_raster_from_layer c colName res =
      .ok { width := (rasterSize b res).1.toNat, height := (rasterSize b res).2.toNat,
            transform := from_bounds b.minx b.miny b.maxx b.maxy
              (rasterSize b res).1 (rasterSize b res).2,
            data := rasterizeGrid ((c.features.map (·.geom)).zip qs) 0 } := by
  have hgc : getColumn c colName = .ok (c.features.map (getAttr · colName)) := by
    unfold getColumn
    rw [if_pos hcol]
  unfold create_raster_from_layer
  simp only [hb]
  rw [if_neg (by omega)]
  simp only [hgc, hqs]

/-- Evaluation of the example collection at resolution 1. -/
theorem createEx_eq : create_raster_from_layer cEx "Num_X" 1 = .ok rEx := by
  have hsz : rasterSize { minx := 0, miny := 0, maxx := 2, maxy := 3 } 1 = (2, 3) := by
    unfold rasterSize pyInt
    norm_num
  have h := create_raster_eq_ok cEx "Num_X" 1
    { minx := 0, miny := 0, maxx := 2, maxy := 3 } [5, 0]
    rfl (by rw [hsz]; decide) (by rw [hsz]; decide) (by decide) (by decide)
  rw [h, hsz]
  rfl

/-- Witness for C1: the example raster, with the last-covering-value reading
of every cell inside its 2×3 grid. -/
theorem create_raster_from_layer_last_covering_witness :
    ∃ qs, toBurnVals (cEx.features.map (getAttr · "Num_X")) = some qs ∧
      ∀ i j, i < rEx.height → j < rEx.width →
        rEx.data i j =
          ((((cEx.features.map (·.geom)).zip qs).filter
              (fun p => coversCell p.1 i j)).getLast?.map Prod.snd).getD 0 :=
  create_raster_from_layer_last_covering cEx "Num_X" 1 rEx createEx_eq

/-- A left fold of `min` is bounded by its initial value. -/
theorem foldl_min_le_init (l : List ℚ) (a : ℚ) : l.foldl min a ≤ a := by
  induction l generalizing a with
  | nil => exact le_refl a
  | cons p l ih => exact le_trans (ih (min a p)) (min_le_left a p)

/-- A left fold of `min` is bounded by every list element. -/
theorem foldl_min_le_mem (l : List ℚ) (a q : ℚ) (hq : q ∈ l) : l.foldl min a ≤ q := by
  induction l generalizing a with
  | nil => cases hq
  | cons p l ih =>
    cases List.mem_cons.mp hq with
    | inl h =>
      subst h
      exact le_trans (foldl_min_le_init l (min a q)) (min_le_right a q)
    | inr h => exact ih (min a p) h

/-- A left fold of `min` is attained: it is the initial value or an element. -/
theorem foldl_min_attained (l : List ℚ) (a : ℚ) :
    l.foldl min a = a ∨ ∃ q ∈ l, l.foldl min a = q := by
  induction l generalizing a with
  | nil => exact Or.inl rfl
  | cons p l ih =>
    rw [List.foldl_cons]
    rcases ih (min a p) with h | ⟨q, hq, h⟩
    · rcases le_total a p with hap | hpa
      · exact Or.inl (by rw [h, min_eq_left hap])
      · exact Or.inr ⟨p, List.mem_cons_self p l, by rw [h, min_eq_right hpa]⟩
    · exact Or.inr ⟨q, List.mem_cons_of_mem p hq, h⟩

/-- A left fold of `max` dominates its initial value. -/
theorem foldl_max_ge_init (l : List ℚ) (a : ℚ) : a ≤ l.foldl max a := by
  induction l generalizing a with
  | nil => exact le_refl a
  | cons p l ih => exact le_trans (le_max_left a p) (ih (max a p))

/-- A left fold of `max` dominates every list element. -/
theorem foldl_max_ge_mem (l : List ℚ) (a q : ℚ) (hq : q ∈ l) : q ≤ l.foldl max a := by
  induction l generalizing a with
  | nil => cases hq
  | cons p l ih =>
    cases List.mem_cons.mp hq with
    | inl h =>
      subst h
      exact le_trans (le_max_right a q) (foldl_max_ge_init l (max a q))
    | inr h => exact ih (max a p) h

/-- A left fold of `max` is attained: it is the initial value or an element. -/
theorem foldl_max_attained (l : List ℚ) (a : ℚ) :
    l.foldl max a = a ∨ ∃ q ∈ l, l.foldl max a = q := by
  induction l generalizing a with
  | nil => exact Or.inl rfl
  | cons p l ih =>
    rw [List.foldl_cons]
    rcases ih (max a p) with h | ⟨q, hq, h⟩
    · rcases le_total p a with hpa | hap
      · exact Or.inl (by rw [h, max_eq_left hpa])
      · exact Or.inr ⟨p, List.mem_cons_self p l, by rw [h, max_eq_right hap]⟩
    · exact Or.inr ⟨q, List.mem_cons_of_mem p hq, h⟩

/-- The `minx` of a bounds fold is the fold of `min` over the x coordinates. -/
theorem foldl_mergeB_minx (ps : List (ℚ × ℚ)) (b : Bounds) :
    (ps.foldl mergeB b).minx = (ps.map Prod.fst).foldl min b.minx := by
  induction ps generalizing b with
  | nil => rfl
  | cons p ps ih => simp [mergeB, ih]

/-- The `miny` of a bounds fold is the fold of `min` over the y coordinates. -/
theorem foldl_mergeB_miny (ps : List (ℚ × ℚ)) (b : Bounds) :
    (ps.foldl mergeB b).miny = (ps.map Prod.snd).foldl min b.miny := by
  induction ps generalizing b with
  | nil => rfl
  | cons p ps ih => simp [mergeB, ih]

/-- The `maxx` of a bounds fold is the fold of `max` over the x coordinates. -/
theorem foldl_mergeB_maxx (ps : List (ℚ × ℚ)) (b : Bounds) :
    (ps.foldl mergeB b).maxx = (ps.map Prod.fst).foldl max b.maxx := by
  induction ps generalizing b with
  | nil => rfl
  | cons p ps ih => simp [mergeB, ih]

/-- The `maxy` of a bounds fold is the fold of `max` over the y coordinates. -/
theorem foldl_mergeB_maxy (ps : List (ℚ × ℚ)) (b : Bounds) :
    (ps.foldl mergeB b).maxy = (ps.map Prod.snd).foldl max b.maxy := by
  induction ps generalizing b with
  | nil => rfl
  | cons p ps ih => simp [mergeB, ih]

/-- The fold `totalBounds` really is the bounding box: it bounds every vertex of every
geometry, and each of its four sides is attained by some vertex. -/
theorem totalBounds_spec (fs : List Feature) (b : Bounds)
    (hb : totalBounds fs = some b) :
    (∀ p ∈ allPts fs, b.minx ≤ p.1 ∧ p.1 ≤ b.maxx ∧ b.miny ≤ p.2 ∧ p.2 ≤ b.maxy) ∧
    (∃ p ∈ allPts fs, p.1 = b.minx) ∧ (∃ p ∈ allPts fs, p.1 = b.maxx) ∧
    (∃ p ∈ allPts fs, p.2 = b.miny) ∧ (∃ p ∈ allPts fs, p.2 = b.maxy) := by
  unfold totalBounds at hb
  cases hpts : allPts fs with
  | nil => rw [hpts] at hb; exact (Option.noConfusion hb)
  | cons p ps =>
    rw [hpts] at hb
    injection hb with hb
    subst hb
    have hminx := foldl_mergeB_minx ps (ptBounds p)
    have hminy := foldl_mergeB_miny ps (ptBounds p)
    have hmaxx := foldl_mergeB_maxx ps (ptBounds p)
    have hmaxy := foldl_mergeB_maxy ps (ptBounds p)
    refine ⟨?_, ?_, ?_, ?_, ?_⟩
    · intro q hq
      rw [hminx, hminy, hmaxx, hmaxy]
      cases List.mem_cons.mp hq with
      | inl h =>
        subst h
        exact ⟨foldl_min_le_init _ _, foldl_max_ge_init _ _,
               foldl_min_le_init _ _, foldl_max_ge_init _ _⟩
      | inr h =>
        exact ⟨foldl_min_le_mem _ _ _ (List.mem_map_of_mem Prod.fst h),
               foldl_max_ge_mem _ _ _ (List.mem_map_of_mem Prod.fst h),
               foldl_min_le_mem _ _ _ (List.mem_map_of_mem Prod.snd h),
               foldl_max_ge_mem _ _ _ (List.mem_map_of_mem Prod.snd h)⟩
    · rw [hminx]
      rcases foldl_min_attained (ps.map Prod.fst) (ptBounds p).minx with h | ⟨q, hq, h⟩
      · exact ⟨p, List.mem_cons_self p ps, h.symm⟩
      · obtain ⟨x, hx, hxe⟩ := List.mem_map.mp hq
        exact ⟨x, List.mem_cons_of_mem p hx, by rw [hxe, ← h]⟩
    · rw [hmaxx]
      rcases foldl_max_attained (ps.map Prod.fst) (ptBounds p).maxx with h | ⟨q, hq, h⟩
      · exact ⟨p, List.mem_cons_self p ps, h.symm⟩
      · obtain ⟨x, hx, hxe⟩ := List.mem_map.mp hq
        exact ⟨x, List.mem_cons_of_mem p hx, by rw [hxe, ← h]⟩
    · rw [hminy]
      rcases foldl_min_attained (ps.map Prod.snd) (ptBounds p).miny with h | ⟨q, hq, h⟩
      · exact ⟨p, List.mem_cons_self p ps, h.symm⟩
      · obtain ⟨x, hx, hxe⟩ := List.mem_map.mp hq
        exact ⟨x, List.mem_cons_of_mem p hx, by rw [hxe, ← h]⟩
    · rw [hmaxy]
      rcases foldl_max_attained (ps.map Prod.snd) (ptBounds p).maxy with h | ⟨q, hq, h⟩
      · exact ⟨p, List.mem_cons_self p ps, h.symm⟩
      · obtain ⟨x, hx, hxe⟩ := List.mem_map.mp hq
        exact ⟨x, List.mem_cons_of_mem p hx, by rw [hxe, ← h]⟩

/-- C8: the bounding box the Grid Rasterizer uses is the min/max X and Y over
all geometry vertices of the subset, and the dimensions it computes are
`floor((maxx - minx) / res)` and `floor((maxy - miny) / res)` (Python's
`int()` truncation coincides with floor because the extents are nonnegative);
a successful run's raster carries exactly those dimensions. -/
theorem rasterSize_is_floor_of_bbox (c : Collection) (res : ℚ) (b : Bounds)
    (hres : 0 < res) (hb : totalBounds c.features = some b) :
    (rasterSize b res).1 = ⌊(b.maxx - b.minx) / res⌋ ∧
    (rasterSize b res).2 = ⌊(b.maxy - b.miny) / res⌋ ∧
    (∀ p ∈ allPts c.features, b.minx ≤ p.1 ∧ p.1 ≤ b.maxx ∧ b.miny ≤ p.2 ∧ p.2 ≤ b.maxy) ∧
    (∃ p ∈ allPts c.features, p.1 = b.minx) ∧ (∃ p ∈ allPts c.features, p.1 = b.maxx) ∧
    (∃ p ∈ allPts c.features, p.2 = b.miny) ∧ (∃ p ∈ allPts c.features, p.2 = b.maxy) ∧
    (∀ colName r, create_raster_from_layer c colName res = .ok r →
        (r.width : ℤ) = ⌊(b.maxx - b.minx) / res⌋ ∧
        (r.height : ℤ) = ⌊(b.maxy - b.miny) / res⌋) := by
  obtain ⟨hall, hminx, hmaxx, hminy, hmaxy⟩ := totalBounds_spec c.features b hb
  have hxx : b.minx ≤ b.maxx := by
    obtain ⟨p, hp, hpe⟩ := hminx
    rw [← hpe]
    exact (hall p hp).2.1
  have hyy : b.miny ≤ b.maxy := by
    obtain ⟨p, hp, hpe⟩ := hminy
    rw [← hpe]
    exact (hall p hp).2.2.2
  have hwfloor : (rasterSize b res).1 = ⌊(b.maxx - b.minx) / res⌋ := by
    show pyInt ((b.maxx - b.minx) / res) = _
    unfold pyInt
    rw [if_pos (Rat.num_nonneg.mpr (div_nonneg (sub_nonneg.mpr hxx) hres.le))]
  have hhfloor : (rasterSize b res).2 = ⌊(b.maxy - b.miny) / res⌋ := by
    show pyInt ((b.maxy - b.miny) / res) = _
    unfold pyInt
    rw [if_pos (Rat.num_nonneg.mpr (div_nonneg (sub_nonneg.mpr hyy) hres.le))]
  refine ⟨hwfloor, hhfloor, hall, hminx, hmaxx, hminy, hmaxy, ?_⟩
  intro colName r h
  unfold create_raster_from_layer at h
  rw [hb] at h
  simp only at h
  by_cases hdim : (rasterSize b res).1 ≤ 0 ∨ (rasterSize b res).2 ≤ 0
  · rw [if_pos hdim] at h; exact (Except.noConfusion h)
  · rw [if_neg hdim] at h
    push_neg at hdim
    cases hcol : getColumn c colName with
    | error e => simp only [hcol] at h; exact (Except.noConfusion h)
    | ok vals =>
      simp only [hcol] at h
      cases htb : toBurnVals vals with
      | none => simp only [htb] at h; exact (Except.noConfusion h)
      | some qs =>
        simp only [htb] at h
        injection h with h
        rw [← h]
        constructor
        · show ((rasterSize b res).1.toNat : ℤ) = _
          rw [← hwfloor]
          omega
        · show ((rasterSize b res).2.toNat : ℤ) = _
          rw [← hhfloor]
          omega

/-- Witness for C8: the bounding box of the example collection and the floor
form of its raster dimensions at resolution 1. -/
theorem rasterSize_is_floor_of_bbox_witness :
    (rasterSize { minx := 0, miny := 0, maxx := 2, maxy := 3 } 1).1 =
      ⌊(({ minx := 0, miny := 0, maxx := 2, maxy := 3 } : Bounds).maxx -
        ({ minx := 0, miny := 0, maxx := 2, maxy := 3 } : Bounds).minx) / 1⌋ ∧
    (rasterSize { minx := 0, miny := 0, maxx := 2, maxy := 3 } 1).2 =
      ⌊(({ minx := 0, miny := 0, maxx := 2, maxy := 3 } : Bounds).maxy -
        ({ minx := 0, miny := 0, maxx := 2, maxy := 3 } : Bounds).miny) / 1⌋ ∧
    (∀ p ∈ allPts cEx.features,
      ({ minx := 0, miny := 0, maxx := 2, maxy := 3 } : Bounds).minx ≤ p.1 ∧
      p.1 ≤ ({ minx := 0, miny := 0, maxx := 2, maxy := 3 } : Bounds).maxx ∧
      ({ minx := 0, miny := 0, maxx := 2, maxy := 3 } : Bounds).miny ≤ p.2 ∧
      p.2 ≤ ({ minx := 0, miny := 0, maxx := 2, maxy := 3 } : Bounds).maxy) ∧
    (∃ p ∈ allPts cEx.features,
      p.1 = ({ minx := 0, miny := 0, maxx := 2, maxy := 3 } : Bounds).minx) ∧
    (∃ p ∈ allPts cEx.features,
      p.1 = ({ minx := 0, miny := 0, maxx := 2, maxy := 3 } : Bounds).maxx) ∧
    (∃ p ∈ allPts cEx.features,
      p.2 = ({ minx := 0, miny := 0, maxx := 2, maxy := 3 } : Bounds).miny) ∧
    (∃ p ∈ allPts cEx.features,
      p.2 = ({ minx := 0, miny := 0, maxx := 2, maxy := 3 } : Bounds).maxy) ∧
    (∀ colName r, create_raster_from_layer cEx colName 1 = .ok r →
      (r.width : ℤ) =
        ⌊(({ minx := 0, miny := 0, maxx := 2, maxy := 3 } : Bounds).maxx -
          ({ minx := 0, miny := 0, maxx := 2, maxy := 3 } : Bounds).minx) / 1⌋ ∧
      (r.height : ℤ) =
        ⌊(({ minx := 0, miny := 0, maxx := 2, maxy := 3 } : Bounds).maxy -
          ({ minx := 0, miny := 0, maxx := 2, maxy := 3 } : Bounds).miny) / 1⌋) :=
  rasterSize_is_floor_of_bbox cEx 1 { minx := 0, miny := 0, maxx := 2, maxy := 3 }
    (by norm_num) rfl

/-- An infix of a list is an infix of any right-extension of it. -/
theorem isInfix_append_right {α : Type} (l m t : List α) (h : l <:+: m) :
    l <:+: m ++ t := by
  obtain ⟨s, u, hs⟩ := h
  exact ⟨s, u ++ t, by rw [← hs]; simp⟩

/-- One pair step contributes exactly one progress entry to the log. -/
theorem filterMap_pairStep (rp : PyVal → String → Except Err Raster) (o : RunOut)
    (y : PyVal) (cn : String) :
    ((pairStep rp o y cn).logs).filterMap convertingOf =
      o.logs.filterMap convertingOf ++ [(y, cn)] := by
  unfold pairStep
  cases rp y cn <;> simp [convertingOf]

/-- The inner column loop contributes one progress entry per column. -/
theorem filterMap_innerLoop (rp : PyVal → String → Except Err Raster)
    (cols : List String) (o : RunOut) (y : PyVal) :
    ((cols.foldl (fun o cn => pairStep rp o y cn) o).logs).filterMap convertingOf =
      o.logs.filterMap convertingOf ++ cols.map (fun cn => (y, cn)) := by
  induction cols generalizing o with
  | nil => simp
  | cons cn cols ih => rw [List.foldl_cons, ih, filterMap_pairStep]; simp

/-- The full nested loop contributes the whole pair product, in order. -/
theorem filterMap_outerLoop (rp : PyVal → String → Except Err Raster)
    (cols : List String) (years : List PyVal) (o : RunOut) :
    ((years.foldl (fun out y => cols.foldl (fun o cn => pairStep rp o y cn) out) o).logs).filterMap
        convertingOf =
      o.logs.filterMap convertingOf ++ allPairs years cols := by
  induction years generalizing o with
  | nil => simp [allPairs]
  | cons y years ih => rw [List.foldl_cons, ih, filterMap_innerLoop]; simp [allPairs]

/-- A pair step only appends to the log, so it preserves log infixes. -/
theorem pairStep_infix_mono (rp : PyVal → String → Except Err Raster) (o : RunOut)
    (y : PyVal) (cn : String) (l : List LogEntry) (h : l <:+: o.logs) :
    l <:+: (pairStep rp o y cn).logs := by
  unfold pairStep
  cases rp y cn <;> exact isInfix_append_right l o.logs _ h

/-- The inner column loop only appends to the log. -/
theorem innerLoop_infix_mono (rp : PyVal → String → Except Err Raster) (y : PyVal)
    (cols : List String) (o : RunOut) (l : List LogEntry) (h : l <:+: o.logs) :
    l <:+: (cols.foldl (fun o cn => pairStep rp o y cn) o).logs := by
  induction cols generalizing o with
  | nil => exact h
  | cons cn cols ih => exact ih _ (pairStep_infix_mono rp o y cn l h)

/-- The outer year loop only appends to the log. -/
theorem outerLoop_infix_mono (rp : PyVal → String → Except Err Raster)
    (cols : List String) (years : List PyVal) (o : RunOut) (l : List LogEntry)
    (h : l <:+: o.logs) :
    l <:+: (years.foldl (fun out y => cols.foldl (fun o cn => pairStep rp o y cn) out) o).logs := by
  induction years generalizing o with
  | nil => exact h
  | cons y years ih => exact ih _ (innerLoop_infix_mono rp y cols o l h)

/-- A failing column inside the inner loop leaves its progress line and its
error line adjacent in the log. -/
theorem innerLoop_err_logged (rp : PyVal → String → Except Err Raster) (y : PyVal)
    (e : Err) (cols : List String) (o : RunOut) (cn : String) (hcn : cn ∈ cols)
    (herr : rp y cn = .error e) :
    [LogEntry.converting y cn, LogEntry.rasterizeError cn e] <:+:
      (cols.foldl (fun o c => pairStep rp o y c) o).logs := by
  induction cols generalizing o with
  | nil => cases hcn
  | cons c cols ih =>
    rw [List.foldl_cons]
    cases List.mem_cons.mp hcn with
    | inl hh =>
      subst hh
      apply innerLoop_infix_mono
      unfold pairStep
      rw [herr]
      exact ⟨o.logs, [], by simp⟩
    | inr hh => exact ih _ hh

/-- A failing pair anywhere in the batch leaves its progress line and its
error line adjacent in the log of the full nested loop. -/
theorem outerLoop_err_logged (rp : PyVal → String → Except Err Raster)
    (cols : List String) (e : Err) (cn : String) (y : PyVal) (years : List PyVal)
    (o : RunOut) (hy : y ∈ years) (hcn : cn ∈ cols) (herr : rp y cn = .error e) :
    [LogEntry.converting y cn, LogEntry.rasterizeError cn e] <:+:
      (years.foldl (fun out yy => cols.foldl (fun o c => pairStep rp o yy c) out) o).logs := by
  induction years generalizing o with
  | nil => cases hy
  | cons yy years ih =>
    rw [List.foldl_cons]
    cases List.mem_cons.mp hy with
    | inl hh =>
      subst hh
      exact outerLoop_infix_mono rp cols years _ _
        (innerLoop_err_logged rp y e cols o cn hcn herr)
    | inr hh => exact ih _ hh

/-- C4: for any per-pair rasterization outcome, the nested loop attempts every
(year, column) pair — the progress entries of its log are exactly the full
pair product, independent of which pairs fail — and every failing pair leaves
its progress line (naming year and column) immediately followed by an error
line (naming column and error) in the log. -/
theorem pairLoop_failsoft (years : List PyVal) (cols : List String)
    (runPair : PyVal → String → Except Err Raster) :
    (pairLoop years cols runPair).logs.filterMap convertingOf = allPairs years cols ∧
    (∀ y ∈ years, ∀ cn ∈ cols, ∀ e, runPair y cn = .error e →
        [LogEntry.converting y cn, LogEntry.rasterizeError cn e] <:+:
          (pairLoop years cols runPair).logs) := by
  constructor
  · unfold pairLoop
    rw [filterMap_outerLoop]
    rfl
  · intro y hy cn hcn e herr
    exact outerLoop_err_logged runPair cols e cn y years _ hy hcn herr

/-- Witness for C4: a one-pair batch whose only pair fails still logs the
progress line followed by the error line. -/
theorem pairLoop_failsoft_witness :
    [LogEntry.converting (PyVal.num 2000) "Num_X",
     LogEntry.rasterizeError "Num_X" Err.writeError] <:+:
      (pairLoop [PyVal.num 2000] ["Num_X"] (fun _ _ => .error .writeError)).logs :=
  (pairLoop_failsoft [PyVal.num 2000] ["Num_X"] (fun _ _ => .error .writeError)).2
    (PyVal.num 2000) (by decide) "Num_X" (by decide) Err.writeError rfl

/-- C5: when the grouping column `Year` is absent the per-year conversion
fails with the SchemaError of the spec's taxonomy (the pandas KeyError on
`gdf['Year']`) before any raster file is written. -/
theorem convert_by_year_schema_error (c : Collection) (exclude : List String)
    (res : ℚ) (h : "Year" ∉ c.columns) :
    (convert_by_year_run (some c) exclude res).2 = some .schemaError ∧
    (convert_by_year_run (some c) exclude res).1.writes = [] := by
  have hgc : getColumn c "Year" = .error .schemaError := by
    unfold getColumn
    rw [if_neg h]
  unfold convert_by_year_run
  simp [hgc]

/-- Witness for C5: the example collection without a Year column. -/
theorem convert_by_year_schema_error_witness :
    (convert_by_year_run (some cExNoYear) [] 1).2 = some .schemaError ∧
    (convert_by_year_run (some cExNoYear) [] 1).1.writes = [] :=
  convert_by_year_schema_error cExNoYear [] 1 (by decide)

/-- Equality `pyEq` only ever accepts genuinely equal, non-missing values. -/
theorem pyEq_imp_eq (v k : PyVal) (h : pyEq v k = true) : v = k := by
  cases v <;> cases k <;> simp [pyEq] at h <;> simp [h]

/-- A non-missing value compares equal to itself under pandas equality. -/
theorem pyEq_self (v : PyVal) (h : isMissing v = false) : pyEq v v = true := by
  cases v <;> simp [pyEq] <;> cases h

/-- A missing value compares unequal to everything, as NaN does. -/
theorem pyEq_missing_left (k : PyVal) : pyEq .missing k = false := by
  cases k <;> rfl

/-- Every value equals itself under the key-collapsing relation of `unique`. -/
theorem pyEquiv_self (v : PyVal) : pyEquiv v v = true := by
  cases v <;> simp [pyEquiv, pyEq, isMissing]

/-- Every element of the input list has a representative, under `pyEquiv`,
either in the already-seen keys or in the output of `pyUniqueAux`. -/
theorem pyUniqueAux_covers (l : List PyVal) (seen : List PyVal) (v : PyVal)
    (hv : v ∈ l) :
    (∃ k ∈ seen, pyEquiv k v = true) ∨
    (∃ k ∈ pyUniqueAux seen l, pyEquiv k v = true) := by
  induction l generalizing seen with
  | nil => cases hv
  | cons w l ih =>
    simp only [pyUniqueAux]
    by_cases hw : seen.any (fun s => pyEquiv s w) = true
    · rw [if_pos hw]
      cases List.mem_cons.mp hv with
      | inl hh =>
        subst hh
        obtain ⟨k, hk, hke⟩ := List.any_eq_true.mp hw
        exact Or.inl ⟨k, hk, hke⟩
      | inr hh => exact ih seen hh
    · rw [if_neg hw]
      cases List.mem_cons.mp hv with
      | inl hh =>
        subst hh
        exact Or.inr ⟨v, List.mem_cons_self _ _, pyEquiv_self v⟩
      | inr hh =>
        rcases ih (w :: seen) hh with ⟨k, hk, hke⟩ | ⟨k, hk, hke⟩
        · cases List.mem_cons.mp hk with
          | inl hkw =>
            subst hkw
            exact Or.inr ⟨k, List.mem_cons_self _ _, hke⟩
          | inr hks => exact Or.inl ⟨k, hks, hke⟩
        · exact Or.inr ⟨k, List.mem_cons_of_mem _ hk, hke⟩

/-- Membership is preserved by sorted insertion. -/
theorem mem_insertSorted (v x : PyVal) (l : List PyVal) :
    x ∈ insertSorted v l ↔ x = v ∨ x ∈ l := by
  induction l with
  | nil => simp [insertSorted]
  | cons w ws ih =>
    rw [insertSorted]
    by_cases h : pyLt v w = true
    · rw [if_pos h]
      simp
    · rw [if_neg h]
      simp only [List.mem_cons, ih]
      tauto

/-- Sorting via `pySort` is a permutation at the level of membership. -/
theorem mem_pySort (x : PyVal) (l : List PyVal) : x ∈ pySort l ↔ x ∈ l := by
  induction l with
  | nil => simp [pySort]
  | cons v vs ih =>
    show x ∈ insertSorted v (pySort vs) ↔ _
    rw [mem_insertSorted, ih]
    simp

/-- A value flagged missing is the missing value. -/
theorem isMissing_eq (v : PyVal) (h : isMissing v = true) : v = .missing := by
  cases v
  · exact absurd h (by simp [isMissing])
  · exact absurd h (by simp [isMissing])
  · rfl

/-- C6 (amended): the per-year grouping is always disjoint — no feature
passes the equality filter of two different keys — and it is complete exactly
on the features whose Year value is non-missing: such a feature lands in the
group of its own Year value, while a feature with a missing Year value
matches no group at all (NaN compares unequal to every key, itself included),
so the union of the groups is the set of features with non-missing Year. -/
theorem yearGroups_disjoint_complete_nonmissing (c : Collection) :
    (∀ f k1 k2, f ∈ yearSubset c k1 → f ∈ yearSubset c k2 → k1 = k2) ∧
    (∀ f ∈ c.features, isMissing (getAttr f "Year") = false →
        getAttr f "Year" ∈ yearKeys c ∧ f ∈ yearSubset c (getAttr f "Year")) ∧
    (∀ f, isMissing (getAttr f "Year") = true → ∀ k, f ∉ yearSubset c k) := by
  refine ⟨?_, ?_, ?_⟩
  · intro f k1 k2 h1 h2
    unfold yearSubset at h1 h2
    have e1 := pyEq_imp_eq _ _ ((List.mem_filter.mp h1).2)
    have e2 := pyEq_imp_eq _ _ ((List.mem_filter.mp h2).2)
    rw [← e1, ← e2]
  · intro f hf hmiss
    constructor
    · have hval : getAttr f "Year" ∈ yearValues c := List.mem_map_of_mem _ hf
      rcases pyUniqueAux_covers (yearValues c) [] _ hval with ⟨k, hk, _⟩ | ⟨k, hk, hke⟩
      · cases hk
      · have hkv : k = getAttr f "Year" := by
          unfold pyEquiv at hke
          simp only [Bool.or_eq_true, Bool.and_eq_true] at hke
          rcases hke with hpe | ⟨_, hmm⟩
          · exact pyEq_imp_eq _ _ hpe
          · exact absurd hmm (by rw [hmiss]; simp)
        unfold yearKeys
        exact (mem_pySort _ _).mpr (hkv ▸ hk)
    · exact List.mem_filter.mpr ⟨hf, pyEq_self _ hmiss⟩
  · intro f hmiss k hmem
    unfold yearSubset at hmem
    have hpe := (List.mem_filter.mp hmem).2
    rw [isMissing_eq _ hmiss, pyEq_missing_left] at hpe
    exact Bool.noConfusion hpe

/-- Witness for C6: the first example feature, whose Year 2000 is non-missing,
lands in the group keyed by its own Year value. -/
theorem yearGroups_disjoint_complete_nonmissing_witness :
    getAttr fEx "Year" ∈ yearKeys cEx ∧ fEx ∈ yearSubset cEx (getAttr fEx "Year") :=
  (yearGroups_disjoint_complete_nonmissing cEx).2.1 fEx (by decide) (by decide)

/-- C6 counterexample: for a collection whose single feature has a missing
Year value, the union of all per-group subsets is empty and therefore differs
from the original collection — partitioning is not complete. -/
theorem yearGroups_union_ne_features :
    ((yearGroups cExMissingYear).map Prod.snd).foldr (· ++ ·) [] ≠
      cExMissingYear.features := by decide

/-- C3 (amended): the CLI exits 1 when the input file is missing; when the
file exists but reading it fails, the error is caught inside
`get_gpkg_layers`, the run returns normally and the exit code is 0 (not
non-zero); when the read succeeds and the collection has a Year column with
at least one key, the run completes and exits 0. -/
theorem mainExit_spec (env : RunEnv) (exclude : List String) (res : ℚ) :
    (env.fileExists = false → mainExit env exclude res false = 1) ∧
    (env.fileExists = true → env.readResult = none →
        mainExit env exclude res false = 0) ∧
    (∀ c, env.fileExists = true → env.readResult = some c → "Year" ∈ c.columns →
        yearKeys c ≠ [] → mainExit env exclude res false = 0) := by
  refine ⟨?_, ?_, ?_⟩
  · intro h
    unfold mainExit
    rw [if_pos h]
  · intro h hr
    unfold mainExit
    rw [if_neg (by simp [h]), hr]
    rfl
  · intro c h hr hcol hkeys
    unfold mainExit
    rw [if_neg (by simp [h]), hr]
    have hgc : getColumn c "Year" = .ok (c.features.map (getAttr · "Year")) := by
      unfold getColumn
      rw [if_pos hcol]
    unfold convert_by_year_run
    simp only [hgc]
    cases hk : yearKeys c with
    | nil => exact absurd hk hkeys
    | cons y ys => simp

/-- Witness for C3 (amended): a run with a missing input file exits 1. -/
theorem mainExit_spec_witness :
    mainExit { fileExists := false, readResult := none } [] 1 false = 1 :=
  (mainExit_spec { fileExists := false, readResult := none } [] 1).1 rfl

/-- C3 counterexample: when the input file exists but cannot be read, the
run terminates with exit code 0, not a non-zero code — the claim's middle
clause fails on the code. -/
theorem mainExit_read_failure_zero :
    envReadFail.fileExists = true ∧ envReadFail.readResult = none ∧
    mainExit envReadFail [] 1 false = 0 := by
  refine ⟨rfl, rfl, rfl⟩

/-- The raster dimensions of the example bounding box at resolution 1. -/
theorem rasterSizeEx : rasterSize { minx := 0, miny := 0, maxx := 2, maxy := 3 } 1 = (2, 3) := by
  unfold rasterSize pyInt
  norm_num

/-- C7 (code bug): the column `Num_X` is listed in the exclude flag, yet the
default per-year path still writes a raster for it — the function accepts
`exclude_columns` and never reads it, selecting columns by the `Num_` name
prefix instead — while the no-year-split path honours the same exclude list
and writes no `Num_X` raster. -/
theorem exclude_ignored_in_by_year_path :
    (PyVal.num 2000, "Num_X") ∈ (convert_by_year_run (some cEx) ["Num_X"] 1).1.writes ∧
    "Num_X" ∉ (convert_no_split_run (some cEx) ["Num_X"] 1).1.writes := by
  constructor
  · have hgc : getColumn cEx "Year" = .ok [PyVal.num 2000, PyVal.num 2000] := by
      unfold getColumn
      rw [if_pos (by decide)]
      rfl
    have hkeys : yearKeys cEx = [PyVal.num 2000] := by decide
    have hcols : cEx.columns.filter (fun s => pyStartsWith "Num_" s) = ["Num_X"] := by decide
    have hfy : filterYear cEx (PyVal.num 2000) = cEx := by decide
    unfold convert_by_year_run
    simp only [hgc, hkeys, hcols]
    unfold pairLoop
    simp only [List.foldl_cons, List.foldl_nil]
    unfold pairStep
    simp only [hfy, createEx_eq]
    decide
  · have hY := create_raster_eq_ok cEx "Year" 1
      { minx := 0, miny := 0, maxx := 2, maxy := 3 } [2000, 2000]
      rfl (by rw [rasterSizeEx]; decide) (by rw [rasterSizeEx]; decide)
      (by decide) (by decide)
    have hnum : (cEx.columns.filter (fun s => isNumericCol cEx s)).filter
        (fun s => decide (s ∉ ["Num_X"])) = ["Year"] := by decide
    unfold convert_no_split_run
    simp only [hnum, List.foldl_cons, List.foldl_nil]
    rw [hY]
    decide

/-- A key found in the left part of an association list is found in the
concatenation, with the same value. -/
theorem lookup_append_left (l1 l2 : List (String × String)) (p : String) (v : String)
    (h : l1.lookup p = some v) : (l1 ++ l2).lookup p = some v := by
  induction l1 with
  | nil => cases h
  | cons kv l1 ih =>
    rw [List.cons_append]
    rw [List.lookup] at h
    rw [List.lookup]
    cases hk : p == kv.1 with
    | true => simp only [hk] at h ⊢; exact h
    | false => simp only [hk] at h ⊢; exact ih h

/-- One loop iteration preserves any already-present file and never requests
its name. -/
theorem downloadStep_preserves (resp : String → Option String) (st : DLState)
    (fname p content : String) (hp : st.fs.lookup p = some content)
    (hreq : p ∉ st.requests) :
    (downloadStep resp st fname).fs.lookup p = some content ∧
    p ∉ (downloadStep resp st fname).requests := by
  unfold downloadStep
  by_cases hex : (st.fs.lookup fname).isSome = true
  · rw [if_pos hex]
    exact ⟨hp, hreq⟩
  · rw [if_neg hex]
    have hne : p ≠ fname := by
      intro he
      subst he
      rw [hp] at hex
      exact hex rfl
    cases hresp : resp fname with
    | some content2 =>
      refine ⟨lookup_append_left st.fs [(fname, content2)] p content hp, ?_⟩
      intro hmem
      rcases List.mem_append.mp hmem with hm | hm
      · exact hreq hm
      · exact hne (List.mem_singleton.mp hm)
    | none =>
      refine ⟨hp, ?_⟩
      intro hmem
      rcases List.mem_append.mp hmem with hm | hm
      · exact hreq hm
      · exact hne (List.mem_singleton.mp hm)

/-- The fold over any name list preserves any already-present file and never
requests its name. -/
theorem downloadFold_preserves (resp : String → Option String) (names : List String)
    (st : DLState) (p content : String) (hp : st.fs.lookup p = some content)
    (hreq : p ∉ st.requests) :
    ((names.foldl (downloadStep resp) st).fs.lookup p = some content) ∧
    p ∉ (names.foldl (downloadStep resp) st).requests := by
  induction names generalizing st with
  | nil => exact ⟨hp, hreq⟩
  | cons fname names ih =>
    rw [List.foldl_cons]
    obtain ⟨h1, h2⟩ := downloadStep_preserves resp st fname p content hp hreq
    exact ih _ h1 h2

/-- C9: a run of the download loop issues no HTTP request for any file
already present in the download folder and leaves that file's content
unchanged, so re-running after an interrupted run is idempotent on
already-downloaded files. -/
theorem runDownload_skips_existing (resp : String → Option String)
    (fs0 : List (String × String)) (p content : String)
    (hp : fs0.lookup p = some content) :
    (runDownload resp fs0).fs.lookup p = some content ∧
    p ∉ (runDownload resp fs0).requests := by
  unfold runDownload
  exact downloadFold_preserves resp tileNames { fs := fs0, requests := [] } p content hp
    (List.not_mem_nil p)

/-- Witness for C9: a folder already holding the first tile of the grid. -/
theorem runDownload_skips_existing_witness :
    (runDownload (fun _ => none)
        [("ETH_GlobalCanopyHeight_10m_2020_N57W015_Map.tif", "tile")]).fs.lookup
      "ETH_GlobalCanopyHeight_10m_2020_N57W015_Map.tif" = some "tile" ∧
    "ETH_GlobalCanopyHeight_10m_2020_N57W015_Map.tif" ∉
      (runDownload (fun _ => none)
        [("ETH_GlobalCanopyHeight_10m_2020_N57W015_Map.tif", "tile")]).requests :=
  runDownload_skips_existing (fun _ => none)
    [("ETH_GlobalCanopyHeight_10m_2020_N57W015_Map.tif", "tile")]
    "ETH_GlobalCanopyHeight_10m_2020_N57W015_Map.tif" "tile" rfl

/-- Setting a column makes that column read back the new value. -/
theorem rowGet_setCol_self (l : Row) (name : String) (v : PyVal) :
    rowGet (setCol l name v) name = v := by
  induction l with
  | nil => simp [setCol, rowGet, List.lookup]
  | cons kv t ih =>
    obtain ⟨k, w⟩ := kv
    rw [setCol]
    by_cases hk : k = name
    · rw [if_pos hk]
      simp [rowGet, List.lookup]
    · rw [if_neg hk]
      have hbeq : (name == k) = false := beq_eq_false_iff_ne.mpr (fun he => hk he.symm)
      simp only [rowGet, List.lookup, hbeq]
      exact ih

/-- Setting a column leaves every other column's value unchanged. -/
theorem rowGet_setCol_other (l : Row) (name other : String) (v : PyVal)
    (h : other ≠ name) : rowGet (setCol l name v) other = rowGet l other := by
  induction l with
  | nil =>
    have hbeq : (other == name) = false := beq_eq_false_iff_ne.mpr h
    simp [setCol, rowGet, List.lookup, hbeq]
  | cons kv t ih =>
    obtain ⟨k, w⟩ := kv
    rw [setCol]
    by_cases hk : k = name
    · rw [if_pos hk]
      subst hk
      have hbeq : (other == k) = false := beq_eq_false_iff_ne.mpr h
      simp [rowGet, List.lookup, hbeq]
    · rw [if_neg hk]
      cases hko : other == k with
      | true => simp [rowGet, List.lookup, hko]
      | false =>
        simp only [rowGet, List.lookup, hko]
        exact ih

/-- Setting an existing column does not change the column-name list. -/
theorem keysOf_setCol_mem (l : Row) (name : String) (v : PyVal)
    (h : name ∈ keysOf l) : keysOf (setCol l name v) = keysOf l := by
  induction l with
  | nil => cases h
  | cons kv t ih =>
    obtain ⟨k, w⟩ := kv
    rw [setCol]
    by_cases hk : k = name
    · rw [if_pos hk]
      rw [hk]
      rfl
    · rw [if_neg hk]
      have hmem : name ∈ keysOf t := by
        cases List.mem_cons.mp h with
        | inl he => exact absurd he.symm hk
        | inr hm => exact hm
      show k :: keysOf (setCol t name v) = k :: keysOf t
      rw [ih hmem]

/-- Setting a fresh column appends it to the column-name list. -/
theorem keysOf_setCol_new (l : Row) (name : String) (v : PyVal)
    (h : name ∉ keysOf l) : keysOf (setCol l name v) = keysOf l ++ [name] := by
  induction l with
  | nil => rfl
  | cons kv t ih =>
    obtain ⟨k, w⟩ := kv
    rw [setCol]
    by_cases hk : k = name
    · exact absurd (hk ▸ List.mem_cons_self k (keysOf t)) h
    · rw [if_neg hk]
      show k :: keysOf (setCol t name v) = (k :: keysOf t) ++ [name]
      rw [ih (fun hm => h (List.mem_cons_of_mem _ hm))]
      rfl

/-- A column absent from a row reads back as NaN. -/
theorem rowGet_missing_of_not_mem_keys (l : Row) (k : String) (h : k ∉ keysOf l) :
    rowGet l k = .missing := by
  induction l with
  | nil => rfl
  | cons kv t ih =>
    obtain ⟨k2, w⟩ := kv
    have hbeq : (k == k2) = false :=
      beq_eq_false_iff_ne.mpr (fun he => h (he ▸ List.mem_cons_self k2 (keysOf t)))
    rw [rowGet, List.lookup]
    simp only [hbeq]
    exact ih (fun hm => h (List.mem_cons_of_mem _ hm))

/-- Folding `setCol` over columns that already exist leaves the column-name
list unchanged. -/
theorem keysOf_foldl_setCol (cols : List String) (g : String → PyVal) (l : Row)
    (h : ∀ c ∈ cols, c ∈ keysOf l) :
    keysOf (cols.foldl (fun a c => setCol a c (g c)) l) = keysOf l := by
  induction cols generalizing l with
  | nil => rfl
  | cons c cols ih =>
    rw [List.foldl_cons]
    have hkeys := keysOf_setCol_mem l c (g c) (h c (List.mem_cons_self c cols))
    rw [ih (setCol l c (g c)) (fun c2 hc2 => hkeys ▸ h c2 (List.mem_cons_of_mem c hc2)),
      hkeys]

/-- Folding `setCol` over a column list not containing `k` leaves `k`'s value
unchanged. -/
theorem rowGet_foldl_setCol_notin (cols : List String) (g : String → PyVal) (l : Row)
    (k : String) (hk : k ∉ cols) :
    rowGet (cols.foldl (fun a c => setCol a c (g c)) l) k = rowGet l k := by
  induction cols generalizing l with
  | nil => rfl
  | cons c cols ih =>
    rw [List.foldl_cons,
      ih (setCol l c (g c)) (fun hm => hk (List.mem_cons_of_mem c hm)),
      rowGet_setCol_other l c k (g c) (fun he => hk (he ▸ List.mem_cons_self c cols))]

/-- Initializing fresh, pairwise-distinct CSV columns appends them, in order,
to the column-name list. -/
theorem keysOf_initCols (l : Row) (cols : List String)
    (hd : ∀ c ∈ cols, c ∉ keysOf l) (hn : cols.Nodup) :
    keysOf (initCols l cols) = keysOf l ++ cols := by
  induction cols generalizing l with
  | nil => simp [initCols]
  | cons c cols ih =>
    have hnew := keysOf_setCol_new l c .missing (hd c (List.mem_cons_self c cols))
    obtain ⟨hc, hcn⟩ := List.nodup_cons.mp hn
    have hd2 : ∀ c2 ∈ cols, c2 ∉ keysOf (setCol l c .missing) := by
      intro c2 hc2 hmem
      rw [hnew] at hmem
      rcases List.mem_append.mp hmem with hm | hm
      · exact hd c2 (List.mem_cons_of_mem c hc2) hm
      · exact hc (List.mem_singleton.mp hm ▸ hc2)
    show keysOf (initCols (setCol l c .missing) cols) = keysOf l ++ c :: cols
    rw [ih (setCol l c .missing) hd2 hcn, hnew]
    simp

/-- Initialization does not touch columns outside the CSV column list. -/
theorem rowGet_initCols_notin (l : Row) (cols : List String) (k : String)
    (hk : k ∉ cols) : rowGet (initCols l cols) k = rowGet l k :=
  rowGet_foldl_setCol_notin cols (fun _ => .missing) l k hk

/-- After initialization every CSV column reads back NaN. -/
theorem rowGet_initCols_mem (l : Row) (cols : List String) (c : String)
    (hn : cols.Nodup) (hc : c ∈ cols) : rowGet (initCols l cols) c = .missing := by
  induction cols generalizing l with
  | nil => cases hc
  | cons c2 cols ih =>
    obtain ⟨hc2, hcn⟩ := List.nodup_cons.mp hn
    show rowGet (initCols (setCol l c2 .missing) cols) c = .missing
    cases List.mem_cons.mp hc with
    | inl he =>
      subst he
      rw [rowGet_initCols_notin _ _ _ hc2]
      exact rowGet_setCol_self l c .missing
    | inr hm => exact ih (setCol l c2 .missing) hcn hm

/-- A fold of pointwise maps over a list of records is the pointwise map of
the fold. -/
theorem foldl_map_comm {α β : Type} (g : β → α → α) (rows : List β) (recs : List α) :
    rows.foldl (fun rs row => rs.map (g row)) recs =
      recs.map (fun r => rows.foldl (fun a row => g row a) r) := by
  induction rows generalizing recs with
  | nil => simp
  | cons row rows ih =>
    rw [List.foldl_cons, ih, List.map_map]
    rfl

/-- The record-level invariant of the CSV join fold: geometry, the original
columns' values and the shapefile key are preserved by every row update, and
for a record whose key never matches, the CSV columns keep whatever values
they started the fold with. -/
theorem joinFold_invariant (shpId csvId : String) (csvCols : List String)
    (rec0 : ShpRec) (hdisj : ∀ cc ∈ csvCols, cc ∉ keysOf rec0.attrs)
    (rows : List Row) (rec : ShpRec)
    (hgeom : rec.geom = rec0.geom)
    (hkeys : keysOf rec.attrs = keysOf rec0.attrs ++ csvCols)
    (horig : ∀ k ∈ keysOf rec0.attrs, rowGet rec.attrs k = rowGet rec0.attrs k)
    (hshp : rowGet rec.attrs shpId = rowGet rec0.attrs shpId) :
    (rows.foldl (fun a row => joinRowStep shpId csvId csvCols row a) rec).geom = rec0.geom ∧
    keysOf (rows.foldl (fun a row => joinRowStep shpId csvId csvCols row a) rec).attrs =
      keysOf rec0.attrs ++ csvCols ∧
    (∀ k ∈ keysOf rec0.attrs,
      rowGet (rows.foldl (fun a row => joinRowStep shpId csvId csvCols row a) rec).attrs k =
        rowGet rec0.attrs k) ∧
    rowGet (rows.foldl (fun a row => joinRowStep shpId csvId csvCols row a) rec).attrs shpId =
      rowGet rec0.attrs shpId ∧
    ((∀ row ∈ rows, pyEq (rowGet rec0.attrs shpId) (rowGet row csvId) = false) →
      ∀ cc ∈ csvCols,
        rowGet (rows.foldl (fun a row => joinRowStep shpId csvId csvCols row a) rec).attrs cc =
          rowGet rec.attrs cc) := by
  induction rows generalizing rec with
  | nil => exact ⟨hgeom, hkeys, horig, hshp, fun _ cc _ => rfl⟩
  | cons row rows ih =>
    rw [List.foldl_cons]
    by_cases hmatch : pyEq (rowGet rec.attrs shpId) (rowGet row csvId) = true
    · have hstep : joinRowStep shpId csvId csvCols row rec =
          { rec with
            attrs := csvCols.foldl (fun a name => setCol a name (rowGet row name)) rec.attrs } := by
        unfold joinRowStep
        rw [if_pos hmatch]
      have hshpmem : shpId ∈ keysOf rec0.attrs := by
        by_contra hnot
        rw [rowGet_missing_of_not_mem_keys rec0.attrs shpId hnot] at hshp
        rw [hshp, pyEq_missing_left] at hmatch
        exact Bool.noConfusion hmatch
      have hsub : ∀ c ∈ csvCols, c ∈ keysOf rec.attrs := by
        intro c hc
        rw [hkeys]
        exact List.mem_append.mpr (Or.inr hc)
      have hgeom2 : (joinRowStep shpId csvId csvCols row rec).geom = rec0.geom := by
        rw [hstep]
        exact hgeom
      have hkeys2 : keysOf (joinRowStep shpId csvId csvCols row rec).attrs =
          keysOf rec0.attrs ++ csvCols := by
        rw [hstep]
        show keysOf (csvCols.foldl (fun a name => setCol a name (rowGet row name)) rec.attrs) = _
        rw [keysOf_foldl_setCol csvCols (fun name => rowGet row name) rec.attrs hsub]
        exact hkeys
      have horig2 : ∀ k ∈ keysOf rec0.attrs,
          rowGet (joinRowStep shpId csvId csvCols row rec).attrs k = rowGet rec0.attrs k := by
        intro k hk
        rw [hstep]
        show rowGet (csvCols.foldl (fun a name => setCol a name (rowGet row name)) rec.attrs) k = _
        rw [rowGet_foldl_setCol_notin csvCols (fun name => rowGet row name) rec.attrs k
          (fun hkc => hdisj k hkc hk)]
        exact horig k hk
      have hshp2 : rowGet (joinRowStep shpId csvId csvCols row rec).attrs shpId =
          rowGet rec0.attrs shpId := horig2 shpId hshpmem
      obtain ⟨g1, g2, g3, g4, _⟩ := ih (joinRowStep shpId csvId csvCols row rec)
        hgeom2 hkeys2 horig2 hshp2
      refine ⟨g1, g2, g3, g4, ?_⟩
      intro hun cc hcc
      rw [hshp] at hmatch
      rw [hun row (List.mem_cons_self row rows)] at hmatch
      exact Bool.noConfusion hmatch
    · have hstep : joinRowStep shpId csvId csvCols row rec = rec := by
        unfold joinRowStep
        rw [if_neg hmatch]
      rw [hstep]
      obtain ⟨g1, g2, g3, g4, g5⟩ := ih rec hgeom hkeys horig hshp
      exact ⟨g1, g2, g3, g4,
        fun hun cc hcc => g5 (fun r hr => hun r (List.mem_cons_of_mem row hr)) cc hcc⟩

/-- C10: when no CSV data column shares a name with a shapefile column, the
join returns exactly the shapefile's records (a pointwise map, preserving
count and order), each keeping its geometry and every original attribute
value; the CSV data columns are appended after the original columns, and a
record whose key matches no CSV row holds NaN in every appended column. -/
theorem csvJoin_frame_effect (df : Frame) (shp : List ShpRec) (csvId shpId : String)
    (hdisj : ∀ rec ∈ shp, ∀ cc ∈ csvDataCols df csvId, cc ∉ keysOf rec.attrs)
    (hnodup : (csvDataCols df csvId).Nodup) :
    ∃ F, csvJoin shp shpId df csvId = shp.map F ∧
      ∀ rec ∈ shp,
        (F rec).geom = rec.geom ∧
        keysOf (F rec).attrs = keysOf rec.attrs ++ csvDataCols df csvId ∧
        (∀ k ∈ keysOf rec.attrs, rowGet (F rec).attrs k = rowGet rec.attrs k) ∧
        ((∀ row ∈ df.rows, pyEq (rowGet rec.attrs shpId) (rowGet row csvId) = false) →
          ∀ cc ∈ csvDataCols df csvId, rowGet (F rec).attrs cc = .missing) := by
  refine ⟨fun r => df.rows.foldl
      (fun a row => joinRowStep shpId csvId (csvDataCols df csvId) row a)
      { r with attrs := initCols r.attrs (csvDataCols df csvId) }, ?_, ?_⟩
  · show df.rows.foldl
        (fun recs row => recs.map (joinRowStep shpId csvId (csvDataCols df csvId) row))
        (shp.map (fun r => { r with attrs := initCols r.attrs (csvDataCols df csvId) })) = _
    rw [foldl_map_comm (fun row r => joinRowStep shpId csvId (csvDataCols df csvId) row r)
      df.rows, List.map_map]
    rfl
  · intro rec hrec
    have hd := hdisj rec hrec
    have hkeys0 : keysOf (initCols rec.attrs (csvDataCols df csvId)) =
        keysOf rec.attrs ++ csvDataCols df csvId :=
      keysOf_initCols rec.attrs _ hd hnodup
    have horig0 : ∀ k ∈ keysOf rec.attrs,
        rowGet (initCols rec.attrs (csvDataCols df csvId)) k = rowGet rec.attrs k :=
      fun k hk => rowGet_initCols_notin rec.attrs _ k (fun hkc => hd k hkc hk)
    have hshp0 : rowGet (initCols rec.attrs (csvDataCols df csvId)) shpId =
        rowGet rec.attrs shpId := by
      by_cases hs : shpId ∈ csvDataCols df csvId
      · rw [rowGet_initCols_mem rec.attrs _ shpId hnodup hs,
          rowGet_missing_of_not_mem_keys rec.attrs shpId (hd shpId hs)]
      · exact rowGet_initCols_notin rec.attrs _ shpId hs
    obtain ⟨g1, g2, g3, g4, g5⟩ := joinFold_invariant shpId csvId (csvDataCols df csvId)
      rec hd df.rows { rec with attrs := initCols rec.attrs (csvDataCols df csvId) }
      rfl hkeys0 horig0 hshp0
    refine ⟨g1, g2, g3, ?_⟩
    intro hun cc hcc
    rw [g5 hun cc hcc]
    exact rowGet_initCols_mem rec.attrs _ cc hnodup hcc

/-- Witness for C10: the example CSV table joined onto the example shapefile;
its CSV data column `v` is fresh and unique. -/
theorem csvJoin_frame_effect_witness :
    ∃ F, csvJoin shpEx "sid" dfEx "cid" = shpEx.map F ∧
      ∀ rec ∈ shpEx,
        (F rec).geom = rec.geom ∧
        keysOf (F rec).attrs = keysOf rec.attrs ++ csvDataCols dfEx "cid" ∧
        (∀ k ∈ keysOf rec.attrs, rowGet (F rec).attrs k = rowGet rec.attrs k) ∧
        ((∀ row ∈ dfEx.rows, pyEq (rowGet rec.attrs "sid") (rowGet row "cid") = false) →
          ∀ cc ∈ csvDataCols dfEx "cid", rowGet (F rec).attrs cc = .missing) :=
  csvJoin_frame_effect dfEx shpEx "cid" "sid" (by decide) (by decide)
